import Mathlib

/-!
Verification of the incremental YouTube kids-channel discovery pipeline
(`main.py`): the keyword classifier `analyze_text_for_kids_content`, the
paginated `search_channels` client, the dedup/batch persistence layer and
the `run_analysis` orchestrator, shallowly embedded as executable Lean
definitions together with theorems about them.
-/

/-! ## Keyword taxonomy (main.py lines 20-37, `self.kids_keywords`) -/

def kidsKeywordsDirect : List String :=
  ["kids", "children", "child", "baby", "babies", "toddler", "toddlers",
   "preschool", "kindergarten", "nursery", "playground", "daycare"]

def kidsKeywordsContent : List String :=
  ["nursery rhymes", "lullaby", "lullabies", "bedtime stories",
   "abc song", "counting song", "finger family", "wheels on the bus",
   "twinkle twinkle", "educational videos", "learning videos",
   "cartoon for kids", "animation for children", "kids songs",
   "children songs", "toy review", "toy unboxing", "play time"]

def kidsKeywordsCharacters : List String :=
  ["peppa pig", "paw patrol", "bluey", "cocomelon", "blippi",
   "ryan", "diana", "vlad", "nastya", "mickey mouse clubhouse",
   "daniel tiger", "sesame street", "thomas the train"]

/-! ## String primitives: Python `str.lower`, substring containment (`in`) -/

/-- Model of Python `text.lower()`: case-fold every character (ASCII case
folding; all taxonomy keywords are ASCII). -/
def strLower (s : String) : String := ⟨s.data.map Char.toLower⟩

/-- `isStartOf needle hay`: `needle` occurs at the head of `hay`. -/
def isStartOf : List Char → List Char → Bool
  | [], _ => true
  | _ :: _, [] => false
  | a :: as, b :: bs => a == b && isStartOf as bs

/-- `hasSub needle hay`: `needle` occurs as a contiguous sublist of `hay`;
model of Python `needle in hay` for strings. -/
def hasSub (needle : List Char) : List Char → Bool
  | [] => isStartOf needle []
  | c :: rest => isStartOf needle (c :: rest) || hasSub needle rest

/-- Python `sub in haystack`. -/
def strContains (haystack sub : String) : Bool := hasSub sub.data haystack.data

/-! ## The age-range regular expression (main.py line 177)

`re.findall(r'\b(?:ages?\s+)?(\d+)\s*(?:-|to)\s*(\d+)\b', text_lower)`,
modelled by a scanner with the same leftmost, non-overlapping match
semantics.  Greedy sub-matches never need to backtrack for this pattern
(a digit can follow neither a shortened digit run nor a shortened
whitespace run usefully), so each alternative is tried deterministically:
the optional `ages?` prefix first with, then without. -/

/-- Python `\w` on the ASCII range. -/
def isWordChar (c : Char) : Bool := c.isAlphanum || c == '_'

/-- Python `\s` on the ASCII range. -/
def isSpaceChar (c : Char) : Bool :=
  c == ' ' || c == '\t' || c == '\n' || c == '\r' || c == '\x0b' || c == '\x0c'

/-- Whether the character at absolute position `i` is a word character
(out-of-range positions count as non-word). -/
def wordAt (t : List Char) (i : Nat) : Bool :=
  match t.get? i with
  | some c => isWordChar c
  | none => false

/-- Python `\b` at position `i`: word-ness differs on the two sides. -/
def boundaryAt (t : List Char) (i : Nat) : Bool :=
  (if i = 0 then false else wordAt t (i - 1)) != wordAt t i

/-- Number of characters satisfying `p` starting at position `i` (greedy run). -/
def spanCount (p : Char → Bool) (t : List Char) (i : Nat) : Nat :=
  ((t.drop i).takeWhile p).length

/-- The literal `s` occurs at position `i` of `t`. -/
def litAt (t : List Char) (i : Nat) (s : List Char) : Bool :=
  isStartOf s (t.drop i)

/-- Digit run starting at position `i`. -/
def digitsAt (t : List Char) (i : Nat) : List Char :=
  (t.drop i).takeWhile Char.isDigit

/-- Python `int` on a run of ASCII digits. -/
def digitsToNat (ds : List Char) : Nat :=
  ds.foldl (fun n c => 10 * n + (c.toNat - '0'.toNat)) 0

/-- Match `(\d+)\s*(?:-|to)\s*(\d+)\b` at position `i`; returns the end
position and the two digit groups. -/
def matchCore (t : List Char) (i : Nat) : Option (Nat × List Char × List Char) :=
  let d1 := digitsAt t i
  if d1.isEmpty then none
  else
    let j := i + d1.length + spanCount isSpaceChar t (i + d1.length)
    let sep : Option Nat :=
      if litAt t j ['-'] then some 1
      else if litAt t j ['t', 'o'] then some 2
      else none
    match sep with
    | none => none
    | some sepLen =>
      let p := j + sepLen + spanCount isSpaceChar t (j + sepLen)
      let d2 := digitsAt t p
      if d2.isEmpty then none
      else if boundaryAt t (p + d2.length) then some (p + d2.length, d1, d2)
      else none

/-- Match the optional `ages?\s+` group at position `i`; returns the
position after the group when it matches. -/
def matchAgesGroup (t : List Char) (i : Nat) : Option Nat :=
  if litAt t i ['a', 'g', 'e'] then
    let j := if litAt t (i + 3) ['s'] then i + 4 else i + 3
    let s := spanCount isSpaceChar t j
    if s = 0 then none else some (j + s)
  else none

/-- Attempt the whole pattern at position `i`: `\b`, then the optional
`ages?\s+` group (preferred, as the regex is greedy), then the core. -/
def matchAt (t : List Char) (i : Nat) : Option (Nat × Nat × Nat) :=
  if boundaryAt t i then
    let withGroup : Option (Nat × List Char × List Char) :=
      match matchAgesGroup t i with
      | some j => matchCore t j
      | none => none
    match withGroup with
    | some (e, d1, d2) => some (e, digitsToNat d1, digitsToNat d2)
    | none =>
      match matchCore t i with
      | some (e, d1, d2) => some (e, digitsToNat d1, digitsToNat d2)
      | none => none
  else none

/-- Leftmost, non-overlapping scan, as `re.findall`: try each position in
order, resume after the end of a successful match. -/
def scanAges (t : List Char) : Nat → Nat → List (Nat × Nat)
  | _, 0 => []
  | i, fuel + 1 =>
    if i ≤ t.length then
      match matchAt t i with
      | some (e, a, b) => (a, b) :: scanAges t (max e (i + 1)) fuel
      | none => scanAges t (i + 1) fuel
    else []

/-- All matches of the age pattern in `t`, as pairs of parsed bounds. -/
def findAges (t : List Char) : List (Nat × Nat) := scanAges t 0 (t.length + 1)

/-! ## The classifier (main.py lines 152-189, `analyze_text_for_kids_content`) -/

structure Analysis where
  score : Nat
  matchedKeywords : List String
  likelyKidsContent : Bool
deriving Repr, DecidableEq

/-- The synthesized label `f"ages {min_age}-{max_age}"`. -/
def ageLabel (a b : Nat) : String := "ages " ++ toString a ++ "-" ++ toString b

/-- One keyword loop of the classifier: `if keyword in text_lower: score +=
weight; matched_keywords.append(keyword)`. -/
def keywordFold (textLower : String) (weight : Nat) (kws : List String)
    (acc : Nat × List String) : Nat × List String :=
  kws.foldl (fun acc kw =>
    if strContains textLower kw then (acc.1 + weight, acc.2 ++ [kw]) else acc) acc

/-- `analyze_text_for_kids_content`: case-fold, score the three keyword
categories (weights 3, 2, 2), score qualifying age matches (+4 each,
qualifying when either bound ≤ 12), deduplicate the matched labels
(`list(set(...))`), and tag `likely_kids_content = score >= 3`. -/
def analyzeTextForKidsContent (text : String) : Analysis :=
  let textLower := strLower text
  let acc1 := keywordFold textLower 3 kidsKeywordsDirect (0, [])
  let acc2 := keywordFold textLower 2 kidsKeywordsContent acc1
  let acc3 := keywordFold textLower 2 kidsKeywordsCharacters acc2
  let acc4 := (findAges textLower.data).foldl (fun acc m =>
    if m.1 ≤ 12 || m.2 ≤ 12 then (acc.1 + 4, acc.2 ++ [ageLabel m.1 m.2]) else acc) acc3
  { score := acc4.1
    matchedKeywords := acc4.2.dedup
    likelyKidsContent := decide (3 ≤ acc4.1) }

/-! ## Hit-count characterisations used to state the score formula -/

/-- Number of distinct taxonomy "direct" keywords occurring in the
case-folded text. -/
def directKeywordHits (text : String) : Nat :=
  (kidsKeywordsDirect.filter (fun kw => strContains (strLower text) kw)).length

/-- Number of distinct "content" keywords occurring in the case-folded text. -/
def contentKeywordHits (text : String) : Nat :=
  (kidsKeywordsContent.filter (fun kw => strContains (strLower text) kw)).length

/-- Number of distinct "characters" keywords occurring in the case-folded text. -/
def characterKeywordHits (text : String) : Nat :=
  (kidsKeywordsCharacters.filter (fun kw => strContains (strLower text) kw)).length

/-- Number of age-range matches where either bound is at most 12. -/
def qualifyingAgeMatches (text : String) : Nat :=
  ((findAges (strLower text).data).filter (fun m => m.1 ≤ 12 || m.2 ≤ 12)).length

theorem keywordFold_fst (tl : String) (w : Nat) :
    ∀ (kws : List String) (acc : Nat × List String),
      (keywordFold tl w kws acc).1 =
        acc.1 + w * (kws.filter (fun kw => strContains tl kw)).length := by
  intro kws
  induction kws with
  | nil => intro acc; simp [keywordFold]
  | cons k ks ih =>
    intro acc
    simp only [keywordFold, List.foldl_cons, List.filter_cons] at *
    by_cases h : strContains tl k
    · simp only [h, if_true, ih, List.length_cons]
      ring
    · simp [h, ih]

theorem ageFold_fst :
    ∀ (ms : List (Nat × Nat)) (acc : Nat × List String),
      (ms.foldl (fun acc m =>
        if m.1 ≤ 12 || m.2 ≤ 12 then (acc.1 + 4, acc.2 ++ [ageLabel m.1 m.2]) else acc) acc).1 =
        acc.1 + 4 * (ms.filter (fun m => m.1 ≤ 12 || m.2 ≤ 12)).length := by
  intro ms
  induction ms with
  | nil => intro acc; simp
  | cons m ms ih =>
    intro acc
    simp only [List.foldl_cons, List.filter_cons]
    by_cases h : (m.1 ≤ 12 || m.2 ≤ 12 : Bool)
    · rw [if_pos h, if_pos h, ih]
      simp only [List.length_cons]
      ring
    · rw [if_neg h, if_neg h]
      exact ih acc

/-- C1 -/
theorem classifier_score_formula (text : String) :
    (analyzeTextForKidsContent text).score =
      3 * directKeywordHits text + 2 * contentKeywordHits text +
        2 * characterKeywordHits text + 4 * qualifyingAgeMatches text ∧
      0 ≤ (analyzeTextForKidsContent text).score := by
  refine ⟨?_, Nat.zero_le _⟩
  unfold analyzeTextForKidsContent directKeywordHits contentKeywordHits
    characterKeywordHits qualifyingAgeMatches
  simp only [keywordFold_fst, ageFold_fst]
  ring

/-- C9 -/
theorem classifier_matched_nodup :
    (∀ text, (analyzeTextForKidsContent text).matchedKeywords.Nodup) ∧
    ∃ text kw, kw ∈ (analyzeTextForKidsContent text).matchedKeywords ∧
      kw ∉ kidsKeywordsDirect ++ kidsKeywordsContent ++ kidsKeywordsCharacters := by
  constructor
  · intro text
    simp only [analyzeTextForKidsContent]
    exact List.nodup_dedup _
  · exact ⟨"ages 2-5", "ages 2-5", by decide, by decide⟩

/-! ## The search client (main.py lines 330-393, the effective
`search_channels`; Python uses the later of the two definitions) -/

/-- Outcome of one page request against the external search endpoint. -/
inductive PageResult where
  | ok (items : List String) (hasNext : Bool)
  | http (status : Nat) (quotaPayload : Bool)
  | exn
deriving Repr, DecidableEq

/-- Result of one `search_channels` call, instrumented with the
`maxResults` parameter sent on each page request and with whether the
quota-exceeded branch was taken (invisible to the Python caller, which
receives only the id list). -/
structure SearchOut where
  ids : List String
  pageSizes : List Nat
  quotaHit : Bool
deriving Repr, DecidableEq

/-- The pagination loop: while fewer than `maxResults` ids are collected,
request `min(min(50, maxResults), remaining)` results; on a 200 extend the
ids (guarded per item by `len < max_results`) and continue only when a
continuation token is present and more ids are needed; any non-200 status
or transport exception breaks, the 403-with-quota-payload case being the
detected quota signal. -/
def searchLoop (pages : Nat → PageResult) (maxResults : Nat) :
    Nat → Nat → List String → List Nat → SearchOut
  | 0, _, ids, reqs => ⟨ids, reqs, false⟩
  | fuel + 1, callIdx, ids, reqs =>
    if ids.length < maxResults then
      let pageSize := min (min 50 maxResults) (maxResults - ids.length)
      let reqs := reqs ++ [pageSize]
      match pages callIdx with
      | .ok items hasNext =>
        let ids := ids ++ items.take (maxResults - ids.length)
        if !hasNext || maxResults ≤ ids.length then ⟨ids, reqs, false⟩
        else searchLoop pages maxResults fuel (callIdx + 1) ids reqs
      | .http status quotaPayload =>
        if status == 403 then ⟨ids, reqs, quotaPayload⟩
        else ⟨ids, reqs, false⟩
      | .exn => ⟨ids, reqs, false⟩
    else ⟨ids, reqs, false⟩

/-- `search_channels(query, max_results)`: run the pagination loop, then
return `channel_ids[:max_results]`. -/
def searchChannels (pages : Nat → PageResult) (maxResults fuel : Nat) : SearchOut :=
  let out := searchLoop pages maxResults fuel 0 [] []
  ⟨out.ids.take maxResults, out.pageSizes, out.quotaHit⟩

/-! ## Channel details and per-channel analysis (main.py lines 136-223) -/

structure ChannelData where
  title : String
  description : String
  brandingDescription : String
  subscriberCount : Nat
  videoCount : Nat
deriving Repr, DecidableEq

/-- Outcome of the detail fetch for one channel: a payload, an empty
`items` response (`analyze_channel` turns it into an error dict), or a
raised exception with its message text. -/
inductive FetchOutcome where
  | found (c : ChannelData)
  | notFound
  | raised (msg : String)
deriving Repr, DecidableEq

/-- The analyzed-channel record built by `analyze_channel`. -/
structure AnalyzedChannel where
  channelId : String
  channelTitle : String
  channelUrl : String
  subscriberCount : Nat
  videoCount : Nat
  kidsContentScore : Nat
  matchedKeywords : String
  likelyKidsContent : Bool
  analysisDate : String
deriving Repr, DecidableEq

/-- `analyze_channel` returns either the error dict
`{'error': 'Channel not found', 'channel_id': ...}` or the full record. -/
inductive AnalyzeResult where
  | err (channelId : String)
  | ok (r : AnalyzedChannel)
deriving Repr, DecidableEq

/-- A call of `analyze_channel` either returns a result or raises. -/
inductive AnalyzeOutcome where
  | res (r : AnalyzeResult)
  | exn (msg : String)
deriving Repr, DecidableEq

/-- The deterministic external environment of one run. -/
structure World where
  searchPages : String → Nat → PageResult
  channelDetail : String → FetchOutcome
  now : String

/-- `analyze_channel`: fetch details, join the non-empty text fields with
a space, classify, and build the record. -/
def analyzeChannel (w : World) (channelId : String) : AnalyzeOutcome :=
  match w.channelDetail channelId with
  | .raised msg => .exn msg
  | .notFound => .res (.err channelId)
  | .found c =>
    let texts := (if c.title ≠ "" then [c.title] else []) ++
                 (if c.description ≠ "" then [c.description] else []) ++
                 (if c.brandingDescription ≠ "" then [c.brandingDescription] else [])
    let combined := String.intercalate " " texts
    let a := analyzeTextForKidsContent combined
    .res (.ok { channelId := channelId, channelTitle := c.title,
                channelUrl := "https://www.youtube.com/channel/" ++ channelId,
                subscriberCount := c.subscriberCount, videoCount := c.videoCount,
                kidsContentScore := a.score,
                matchedKeywords := String.intercalate ", " a.matchedKeywords,
                likelyKidsContent := a.likelyKidsContent,
                analysisDate := w.now })

/-! ## The spreadsheet-backed store (main.py lines 225-248, 316-328, 522-563) -/

/-- The run-summary block written to the Config sheet at D1. -/
structure Summary where
  lastRun : String
  totalAnalyzed : Nat
  newAdded : Nat
  searchTermsUsed : String
deriving Repr, DecidableEq

/-- The external store: the Results worksheet (absent before first
creation; rows include the header row once created) and the summary block. -/
structure Store where
  resultRows : Option (List (List String))
  summary : Option Summary
deriving Repr, DecidableEq

def resultHeaders : List String :=
  ["Channel ID", "Channel Title", "Channel URL", "Subscriber Count",
   "Video Count", "Kids Score", "Matched Keywords", "Likely Kids Content",
   "Analysis Date"]

/-- The spreadsheet row built for one analyzed channel. -/
def toRow (r : AnalyzedChannel) : List String :=
  [r.channelId, r.channelTitle, r.channelUrl, toString r.subscriberCount,
   toString r.videoCount, toString r.kidsContentScore, r.matchedKeywords,
   if r.likelyKidsContent then "Yes" else "No", r.analysisDate]

/-- The per-row extraction of `get_existing_channels`:
`if row and len(row) > 0 and row[0]`, then take `row[0]`. -/
def pickId (row : List String) : Option String :=
  match row.head? with
  | some c => if c ≠ "" then some c else none
  | none => none

/-- `get_existing_channels`: first column of every row after the header
when the cell is non-empty; empty when the worksheet does not exist. -/
def getExistingChannels (st : Store) : List String :=
  match st.resultRows with
  | none => []
  | some rows => (rows.drop 1).filterMap pickId

/-- Instrumentation of one `write_batch_to_sheets` call: whether the header
was written (worksheet creation), the 1-based row the update started at,
and the rows written. -/
structure WriteEvent where
  wroteHeader : Bool
  startRow : Nat
  rows : List (List String)
deriving Repr, DecidableEq

/-- `write_batch_to_sheets`: create the worksheet with the header row if it
does not exist, then write the batch rows starting at row
`len(all_values) + 1` (an append past the last existing row). -/
def writeBatchToSheets (st : Store) (batchResults : List AnalyzedChannel) :
    Store × WriteEvent :=
  let created := st.resultRows.isNone
  let rows0 := match st.resultRows with
    | some rows => rows
    | none => [resultHeaders]
  let newRows := batchResults.map toRow
  if newRows.isEmpty then
    ({ st with resultRows := some rows0 }, ⟨created, rows0.length + 1, []⟩)
  else
    ({ st with resultRows := some (rows0 ++ newRows) },
     ⟨created, rows0.length + 1, newRows⟩)

/-- `update_summary`: overwrite the fixed summary block. -/
def updateSummary (st : Store) (now : String) (totalFound newAdded : Nat)
    (searchTerms : List String) : Store :=
  { st with summary := some ⟨now, totalFound, newAdded,
      String.intercalate ", " searchTerms⟩ }

/-! ## The orchestrator `run_analysis` (main.py lines 395-520) -/

/-- The run configuration read from the Config sheet. -/
structure RunConfig where
  searchTerms : List String
  maxResultsPerTerm : Nat
  minKidsScore : Nat
deriving Repr, DecidableEq

/-- The outcome of the `try` block of `get_input_from_sheets`: either a
successfully read and parsed configuration, or any exception. -/
inductive ConfigSource where
  | ok (c : RunConfig)
  | failure
deriving Repr, DecidableEq

/-- `get_input_from_sheets`: the parsed configuration, or the hardcoded
fallback on any read failure. -/
def getInputFromSheets : ConfigSource → RunConfig
  | .ok c => c
  | .failure => ⟨["kids", "children", "nursery rhymes"], 100, 3⟩

/-- The score-and-error filter applied to each batch before persisting:
`r.get('kids_content_score', 0) >= min_kids_score and 'error' not in r`. -/
def resScore : AnalyzeResult → Nat
  | .err _ => 0
  | .ok r => r.kidsContentScore

def hasError : AnalyzeResult → Bool
  | .err _ => true
  | .ok _ => false

def qualifies (minKidsScore : Nat) (r : AnalyzeResult) : Bool :=
  minKidsScore ≤ resScore r && !hasError r

/-- The qualifying records of a batch, in order. -/
def filterBatch (minKidsScore : Nat) (rs : List AnalyzeResult) :
    List AnalyzedChannel :=
  rs.filterMap (fun r =>
    if qualifies minKidsScore r then
      match r with
      | .err _ => none
      | .ok a => some a
    else none)

/-- The quota test of the per-channel exception handler:
`'quotaExceeded' in str(e) or '403' in str(e)`. -/
def isQuotaMsg (msg : String) : Bool :=
  strContains msg "quotaExceeded" || strContains msg "403"

/-- Result of the inner per-batch loop, instrumented with the channels for
which an analysis was attempted. -/
structure BatchOut where
  results : List AnalyzeResult
  attempted : List String
  quotaStop : Bool
deriving Repr, DecidableEq

/-- The inner loop over one batch: append each analysis result; on a
raised exception, break out of the batch when the message looks like a
quota/403 error, otherwise skip the channel and continue. -/
def processBatch (w : World) : List String → BatchOut
  | [] => ⟨[], [], false⟩
  | channelId :: rest =>
    match analyzeChannel w channelId with
    | .res r =>
      let o := processBatch w rest
      ⟨r :: o.results, channelId :: o.attempted, o.quotaStop⟩
    | .exn msg =>
      if isQuotaMsg msg then ⟨[], [channelId], true⟩
      else
        let o := processBatch w rest
        ⟨o.results, channelId :: o.attempted, o.quotaStop⟩

def batchSize : Nat := 50

/-- `range(0, len(ids), batch_size)` slicing, with explicit fuel (one unit
per slice suffices since every slice consumes at least one element). -/
def toBatchesGo : Nat → List String → List (List String)
  | _, [] => []
  | 0, _ :: _ => []
  | fuel + 1, x :: xs =>
    (x :: xs).take batchSize :: toBatchesGo fuel ((x :: xs).drop batchSize)

/-- The consecutive batches `list(ids)[i:i+batch_size]`. -/
def toBatches (l : List String) : List (List String) :=
  toBatchesGo l.length l

/-- Accumulated outcome of the batch-processing phase. -/
structure BatchesOut where
  store : Store
  attempted : List String
  persisted : List AnalyzedChannel
  totalAdded : Nat
  events : List WriteEvent
deriving Repr, DecidableEq

/-- The outer batch loop: analyze a batch, filter it, persist it
immediately when non-empty, and continue with the next batch (a quota
break inside a batch does not stop the outer loop). -/
def processBatches (w : World) (minKidsScore : Nat) :
    Store → List (List String) → BatchesOut
  | st, [] => ⟨st, [], [], 0, []⟩
  | st, b :: bs =>
    let o := processBatch w b
    let filtered := filterBatch minKidsScore o.results
    let stepped :=
      if filtered.isEmpty then (st, ([] : List WriteEvent))
      else
        let we := writeBatchToSheets st filtered
        (we.1, [we.2])
    let rest := processBatches w minKidsScore stepped.1 bs
    ⟨rest.store, o.attempted ++ rest.attempted, filtered ++ rest.persisted,
      filtered.length + rest.totalAdded, stepped.2 ++ rest.events⟩

/-- Python-set accumulation `all_channel_ids.update(channel_ids)`,
determinised to insertion order. -/
def setUnion (acc : List String) (ids : List String) : List String :=
  ids.foldl (fun a i => if a.contains i then a else a ++ [i]) acc

/-- Outcome of the search phase, instrumented with the terms for which a
`search_channels` call was issued. -/
structure SearchPhaseOut where
  allChannelIds : List String
  issuedTerms : List String
  searchCount : Nat
deriving Repr, DecidableEq

/-- The term loop of `run_analysis`: search each term; when a term yields
no ids and more than 20 searches have already run, stop the phase;
otherwise accumulate and continue. -/
def searchPhaseGo (w : World) (cfg : RunConfig) (fuel : Nat) :
    List String → List String → List String → Nat → SearchPhaseOut
  | [], acc, issued, count => ⟨acc, issued, count⟩
  | term :: rest, acc, issued, count =>
    let out := searchChannels (w.searchPages term) cfg.maxResultsPerTerm fuel
    let issued := issued ++ [term]
    if out.ids.isEmpty then
      if 20 < count then ⟨acc, issued, count⟩
      else searchPhaseGo w cfg fuel rest acc issued (count + 1)
    else
      searchPhaseGo w cfg fuel rest (setUnion acc out.ids) issued (count + 1)

def searchPhase (w : World) (cfg : RunConfig) (fuel : Nat) : SearchPhaseOut :=
  searchPhaseGo w cfg fuel cfg.searchTerms [] [] 0

/-- Full outcome of one `run_analysis` invocation, instrumented with what
was searched, attempted, persisted, and whether the final summary update
ran. -/
structure RunOut where
  store : Store
  issuedTerms : List String
  allChannelIds : List String
  newChannelIds : List String
  attempted : List String
  persisted : List AnalyzedChannel
  totalAdded : Nat
  summaryWritten : Bool
  events : List WriteEvent

/-- `run_analysis`: load config, search all terms, return early when
nothing was found; dedup against the stored channel ids, return early when
no candidate is new (both early returns skip the summary update);
otherwise process the batches and write the final summary. -/
def runAnalysis (w : World) (cs : ConfigSource) (fuel : Nat) (st : Store) :
    RunOut :=
  let config := getInputFromSheets cs
  let sp := searchPhase w config fuel
  if sp.allChannelIds.isEmpty then
    ⟨st, sp.issuedTerms, sp.allChannelIds, [], [], [], 0, false, []⟩
  else
    let existing := getExistingChannels st
    let newChannelIds := sp.allChannelIds.filter (fun cid => !existing.contains cid)
    if newChannelIds.isEmpty then
      ⟨st, sp.issuedTerms, sp.allChannelIds, newChannelIds, [], [], 0, false, []⟩
    else
      let bo := processBatches w config.minKidsScore st (toBatches newChannelIds)
      let st1 := updateSummary bo.store w.now newChannelIds.length bo.totalAdded
        config.searchTerms
      ⟨st1, sp.issuedTerms, sp.allChannelIds, newChannelIds, bo.attempted,
        bo.persisted, bo.totalAdded, true, bo.events⟩

/-! ## Theorems -/

/-- C8: on any configuration read failure the run proceeds with the
hardcoded default RunConfig: terms `["kids", "children", "nursery
rhymes"]`, `max_results_per_term = 100`, `min_kids_score = 3`; the whole
pipeline behaves exactly as with that default configuration. -/
theorem config_read_failure_fallback :
    getInputFromSheets ConfigSource.failure =
      { searchTerms := ["kids", "children", "nursery rhymes"],
        maxResultsPerTerm := 100, minKidsScore := 3 } ∧
    ∀ w fuel st, runAnalysis w ConfigSource.failure fuel st =
      runAnalysis w (ConfigSource.ok
        { searchTerms := ["kids", "children", "nursery rhymes"],
          maxResultsPerTerm := 100, minKidsScore := 3 }) fuel st :=
  ⟨rfl, fun _ _ _ => rfl⟩

theorem searchLoop_pageSizes_le (pages : Nat → PageResult) (maxResults : Nat) :
    ∀ (fuel callIdx : Nat) (ids : List String) (reqs : List Nat),
      (∀ s ∈ reqs, s ≤ 50) →
      ∀ s ∈ (searchLoop pages maxResults fuel callIdx ids reqs).pageSizes,
        s ≤ 50 := by
  intro fuel
  induction fuel with
  | zero => intro callIdx ids reqs h; exact h
  | succ fuel ih =>
    intro callIdx ids reqs h
    have key : ∀ (x : Nat), x ≤ 50 → ∀ s ∈ reqs ++ [x], s ≤ 50 := by
      intro x hx s hs
      rcases List.mem_append.mp hs with hs | hs
      · exact h s hs
      · simp only [List.mem_singleton] at hs
        omega
    simp only [searchLoop]
    split
    · split
      · split
        · exact key _ (by omega)
        · exact ih _ _ _ (key _ (by omega))
      · split
        · exact key _ (by omega)
        · exact key _ (by omega)
      · exact key _ (by omega)
    · exact h

/-- C7: every `search_channels` call returns at most `max_results` channel
identifiers, and no single page request asks for more than 50 results. -/
theorem search_channels_caps (pages : Nat → PageResult) (maxResults fuel : Nat) :
    (searchChannels pages maxResults fuel).ids.length ≤ maxResults ∧
    ∀ s ∈ (searchChannels pages maxResults fuel).pageSizes, s ≤ 50 := by
  constructor
  · simp only [searchChannels, List.length_take]
    omega
  · intro s hs
    exact searchLoop_pageSizes_le pages maxResults fuel 0 [] [] (by simp) s hs

/-- Witness for C7 at a concrete page function. -/
theorem search_channels_caps_witness :
    1 ∈ (searchChannels (fun _ => PageResult.ok ["a"] false) 1 3).pageSizes ∧
    1 ≤ 50 :=
  ⟨by decide, (search_channels_caps (fun _ => PageResult.ok ["a"] false) 1 3).2 1 (by decide)⟩

theorem writeBatch_spec (st : Store) (batch : List AnalyzedChannel) :
    (writeBatchToSheets st batch).1.resultRows =
      some ((st.resultRows.getD [resultHeaders]) ++ batch.map toRow) ∧
    (writeBatchToSheets st batch).1.summary = st.summary ∧
    (writeBatchToSheets st batch).2.wroteHeader = st.resultRows.isNone ∧
    (writeBatchToSheets st batch).2.startRow =
      (st.resultRows.getD [resultHeaders]).length + 1 ∧
    (writeBatchToSheets st batch).2.rows = batch.map toRow := by
  cases hst : st.resultRows <;> cases batch <;>
    simp [writeBatchToSheets, hst]

theorem writeBatch_isSome (st : Store) (batch : List AnalyzedChannel) :
    (writeBatchToSheets st batch).1.resultRows.isSome = true := by
  rw [(writeBatch_spec st batch).1]
  rfl

theorem processBatches_headerCount_zero (w : World) (m : Nat) :
    ∀ (bs : List (List String)) (st : Store), st.resultRows.isSome = true →
      (processBatches w m st bs).events.countP (fun e => e.wroteHeader) = 0 := by
  intro bs
  induction bs with
  | nil => intro st h; simp [processBatches]
  | cons b bs ih =>
    intro st h
    simp only [processBatches]
    by_cases hf : (filterBatch m (processBatch w b).results).isEmpty
    · rw [if_pos hf]
      simpa using ih st h
    · rw [if_neg hf]
      have hhd : (writeBatchToSheets st (filterBatch m (processBatch w b).results)).2.wroteHeader = false := by
        rw [(writeBatch_spec st _).2.2.1]
        cases hst : st.resultRows with
        | none => rw [hst] at h; simp at h
        | some rows => rfl
      have h0 := ih ((writeBatchToSheets st (filterBatch m (processBatch w b).results)).1)
        (writeBatch_isSome st (filterBatch m (processBatch w b).results))
      simp [List.countP_append, List.countP_cons, hhd, h0]

theorem processBatches_headerCount_le (w : World) (m : Nat) :
    ∀ (bs : List (List String)) (st : Store),
      (processBatches w m st bs).events.countP (fun e => e.wroteHeader) ≤ 1 := by
  intro bs
  induction bs with
  | nil => intro st; simp [processBatches]
  | cons b bs ih =>
    intro st
    simp only [processBatches]
    by_cases hf : (filterBatch m (processBatch w b).results).isEmpty
    · rw [if_pos hf]
      simpa using ih st
    · rw [if_neg hf]
      have h0 := processBatches_headerCount_zero w m bs
        ((writeBatchToSheets st (filterBatch m (processBatch w b).results)).1)
        (writeBatch_isSome st (filterBatch m (processBatch w b).results))
      simp only [List.countP_append, List.countP_cons, List.countP_nil, h0]
      split <;> omega

/-- C6: every batch write appends its rows immediately after the last
existing row (`startRow = len + 1`, new table = old rows ++ new rows, so
no existing row is removed or overwritten), and the header row is written
exactly when the Results worksheet is created because it did not exist:
per call, `wroteHeader` iff the table was absent; per run, at most one
header write, and none when the table already exists. -/
theorem append_only_header_once :
    (∀ (st : Store) (batch : List AnalyzedChannel),
      (writeBatchToSheets st batch).1.resultRows =
        some ((st.resultRows.getD [resultHeaders]) ++
          (writeBatchToSheets st batch).2.rows) ∧
      (writeBatchToSheets st batch).2.startRow =
        (st.resultRows.getD [resultHeaders]).length + 1 ∧
      (writeBatchToSheets st batch).2.wroteHeader = st.resultRows.isNone) ∧
    (∀ (w : World) (m : Nat) (st : Store) (bs : List (List String)),
      (processBatches w m st bs).events.countP (fun e => e.wroteHeader) ≤ 1 ∧
      (st.resultRows.isSome = true →
        (processBatches w m st bs).events.countP (fun e => e.wroteHeader) = 0)) := by
  constructor
  · intro st batch
    obtain ⟨h1, _, h3, h4, h5⟩ := writeBatch_spec st batch
    exact ⟨by rw [h1, h5], h4, h3⟩
  · intro w m st bs
    exact ⟨processBatches_headerCount_le w m bs st,
      fun h => processBatches_headerCount_zero w m bs st h⟩

/-- A minimal deterministic environment used by closed witnesses. -/
def trivialWorld : World :=
  { searchPages := fun _ _ => PageResult.exn
    channelDetail := fun _ => FetchOutcome.notFound
    now := "t" }

/-- Witness for C6 at a store whose Results worksheet already exists. -/
theorem append_only_header_once_witness :
    (Store.mk (some [resultHeaders]) none).resultRows.isSome = true ∧
    (processBatches trivialWorld 3 (Store.mk (some [resultHeaders]) none)
      []).events.countP (fun e => e.wroteHeader) = 0 :=
  ⟨rfl, (append_only_header_once.2 trivialWorld 3 (Store.mk (some [resultHeaders]) none) []).2 rfl⟩

theorem mem_filterBatch {m : Nat} {rs : List AnalyzeResult} {a : AnalyzedChannel}
    (h : a ∈ filterBatch m rs) :
    AnalyzeResult.ok a ∈ rs ∧ m ≤ a.kidsContentScore := by
  simp only [filterBatch, List.mem_filterMap] at h
  obtain ⟨r, hr, he⟩ := h
  cases r with
  | err c =>
    by_cases hq : qualifies m (AnalyzeResult.err c) = true <;> simp [hq] at he
  | ok b =>
    by_cases hq : qualifies m (AnalyzeResult.ok b) = true
    · rw [if_pos hq] at he
      simp only [Option.some.injEq] at he
      subst he
      refine ⟨hr, ?_⟩
      simpa [qualifies, resScore, hasError] using hq
    · simp [hq] at he

theorem mem_processBatch {w : World} :
    ∀ {b : List String} {r : AnalyzeResult},
      r ∈ (processBatch w b).results →
      ∃ cid ∈ b, analyzeChannel w cid = AnalyzeOutcome.res r := by
  intro b
  induction b with
  | nil => intro r hr; simp [processBatch] at hr
  | cons c rest ih =>
    intro r hr
    simp only [processBatch] at hr
    split at hr
    next r0 heq =>
      simp only [List.mem_cons] at hr
      rcases hr with rfl | hr
      · exact ⟨c, List.mem_cons_self c rest, heq⟩
      · obtain ⟨cid, hcid, hres⟩ := ih hr
        exact ⟨cid, List.mem_cons_of_mem c hcid, hres⟩
    next msg heq =>
      split at hr
      · simp at hr
      · obtain ⟨cid, hcid, hres⟩ := ih hr
        exact ⟨cid, List.mem_cons_of_mem c hcid, hres⟩

theorem analyzeChannel_ok_id {w : World} {cid : String} {a : AnalyzedChannel}
    (h : analyzeChannel w cid = AnalyzeOutcome.res (AnalyzeResult.ok a)) :
    a.channelId = cid := by
  unfold analyzeChannel at h
  cases hd : w.channelDetail cid <;> rw [hd] at h <;> simp at h
  obtain ⟨rfl⟩ := h.symm
  rfl

theorem mem_processBatches_persisted {w : World} {m : Nat} :
    ∀ {bs : List (List String)} {st : Store} {a : AnalyzedChannel},
      a ∈ (processBatches w m st bs).persisted →
      ∃ b ∈ bs, a ∈ filterBatch m (processBatch w b).results := by
  intro bs
  induction bs with
  | nil => intro st a ha; simp [processBatches] at ha
  | cons b bs ih =>
    intro st a ha
    simp only [processBatches, List.mem_append] at ha
    rcases ha with ha | ha
    · exact ⟨b, List.mem_cons_self b bs, ha⟩
    · obtain ⟨b', hb', ha'⟩ := ih ha
      exact ⟨b', List.mem_cons_of_mem b hb', ha'⟩

theorem mem_processBatches_eventRows {w : World} {m : Nat} :
    ∀ {bs : List (List String)} {st : Store} {row : List String},
      row ∈ ((processBatches w m st bs).events.map WriteEvent.rows).flatten →
      ∃ a ∈ (processBatches w m st bs).persisted, row = toRow a := by
  intro bs
  induction bs with
  | nil => intro st row h; simp [processBatches] at h
  | cons b bs ih =>
    intro st row h
    simp only [processBatches] at h ⊢
    by_cases hf : (filterBatch m (processBatch w b).results).isEmpty
    · rw [if_pos hf] at h ⊢
      simp only [List.map_append, List.flatten_append] at h
      simp only [List.map_nil, List.flatten_nil, List.nil_append] at h
      obtain ⟨a, ha, hrow⟩ := ih h
      exact ⟨a, List.mem_append_right _ ha, hrow⟩
    · rw [if_neg hf] at h ⊢
      simp only [List.map_append, List.flatten_append, List.mem_append] at h
      rcases h with h | h
      · simp only [List.map_cons, List.map_nil, List.flatten_cons, List.flatten_nil,
          List.append_nil, (writeBatch_spec st _).2.2.2.2, List.mem_map] at h
        obtain ⟨a, ha, hrow⟩ := h
        exact ⟨a, List.mem_append_left _ ha, hrow.symm⟩
      · obtain ⟨a, ha, hrow⟩ := ih h
        exact ⟨a, List.mem_append_right _ ha, hrow⟩

/-- C5: a candidate whose classification score is below the run's
`min_kids_score`, or whose detail fetch failed, is never persisted: every
persisted record comes from a successful `analyze_channel` call and scores
at least the threshold, and every appended spreadsheet row is the row of
such a record. -/
theorem persisted_rows_qualify :
    (∀ (w : World) (cs : ConfigSource) (fuel : Nat) (st : Store) (a : AnalyzedChannel),
      a ∈ (runAnalysis w cs fuel st).persisted →
      (getInputFromSheets cs).minKidsScore ≤ a.kidsContentScore ∧
      analyzeChannel w a.channelId = AnalyzeOutcome.res (AnalyzeResult.ok a)) ∧
    (∀ (w : World) (cs : ConfigSource) (fuel : Nat) (st : Store) (row : List String),
      row ∈ ((runAnalysis w cs fuel st).events.map WriteEvent.rows).flatten →
      ∃ a ∈ (runAnalysis w cs fuel st).persisted, row = toRow a) := by
  constructor
  · intro w cs fuel st a ha
    simp only [runAnalysis] at ha
    split at ha
    · simp at ha
    · split at ha
      · simp at ha
      · simp only [] at ha
        obtain ⟨b, _, hfb⟩ := mem_processBatches_persisted ha
        obtain ⟨hok, hsc⟩ := mem_filterBatch hfb
        obtain ⟨cid, _, hres⟩ := mem_processBatch hok
        have hid := analyzeChannel_ok_id hres
        exact ⟨hsc, by rw [hid]; exact hres⟩
  · intro w cs fuel st row hrow
    simp only [runAnalysis] at hrow ⊢
    split at hrow
    next h1 => simp at hrow
    next h1 =>
      split at hrow
      next h2 => simp at hrow
      next h2 =>
        rw [if_neg h1, if_neg h2]
        exact mem_processBatches_eventRows hrow

/-- Concrete environment: one search page with one channel whose metadata
contains "kids". -/
def w5 : World :=
  { searchPages := fun _ k => if k = 0 then PageResult.ok ["c1"] false else PageResult.exn
    channelDetail := fun _ => FetchOutcome.found ⟨"kids", "", "", 0, 0⟩
    now := "d" }

def cs5 : ConfigSource := ConfigSource.ok ⟨["t"], 5, 3⟩

def a5 : AnalyzedChannel :=
  { channelId := "c1", channelTitle := "kids",
    channelUrl := "https://www.youtube.com/channel/c1",
    subscriberCount := 0, videoCount := 0, kidsContentScore := 3,
    matchedKeywords := "kids", likelyKidsContent := true, analysisDate := "d" }

/-- Witness for C5 at a concrete run that persists one channel. -/
theorem persisted_rows_qualify_witness :
    a5 ∈ (runAnalysis w5 cs5 3 (Store.mk none none)).persisted ∧
    (getInputFromSheets cs5).minKidsScore ≤ a5.kidsContentScore ∧
    analyzeChannel w5 a5.channelId = AnalyzeOutcome.res (AnalyzeResult.ok a5) := by
  have hm : a5 ∈ (runAnalysis w5 cs5 3 (Store.mk none none)).persisted := by decide
  exact ⟨hm, (persisted_rows_qualify.1 w5 cs5 3 (Store.mk none none) a5 hm).1,
    (persisted_rows_qualify.1 w5 cs5 3 (Store.mk none none) a5 hm).2⟩

/-- The analysis results a channel list yields when no quota break occurs
(raised non-quota exceptions are skipped by the `continue` branch). -/
def analyzeResultsOf (w : World) (l : List String) : List AnalyzeResult :=
  l.filterMap (fun c => match analyzeChannel w c with
    | AnalyzeOutcome.res r => some r
    | AnalyzeOutcome.exn _ => none)

/-- Whether analyzing `cid` raises an exception that the batch loop treats
as a quota error. -/
def quotaRaises (w : World) (cid : String) : Bool :=
  match analyzeChannel w cid with
  | AnalyzeOutcome.exn m => isQuotaMsg m
  | AnalyzeOutcome.res _ => false

theorem processBatch_no_quota {w : World} :
    ∀ {b : List String}, (∀ c ∈ b, quotaRaises w c = false) →
      processBatch w b = ⟨analyzeResultsOf w b, b, false⟩ := by
  intro b
  induction b with
  | nil => intro _; rfl
  | cons c rest ih =>
    intro h
    have hrest := ih (fun x hx => h x (List.mem_cons_of_mem c hx))
    have hc := h c (List.mem_cons_self c rest)
    cases ha : analyzeChannel w c with
    | res r =>
      simp [processBatch, ha, hrest, analyzeResultsOf, List.filterMap_cons]
    | exn m =>
      have hm : isQuotaMsg m = false := by
        unfold quotaRaises at hc
        rw [ha] at hc
        exact hc
      simp [processBatch, ha, hm, hrest, analyzeResultsOf, List.filterMap_cons]

theorem processBatch_quota_break {w : World} {bad : String}
    (hbad : quotaRaises w bad = true) :
    ∀ {pre : List String}, (∀ c ∈ pre, quotaRaises w c = false) →
      ∀ (post : List String),
        processBatch w (pre ++ bad :: post) =
          ⟨analyzeResultsOf w pre, pre ++ [bad], true⟩ := by
  intro pre
  induction pre with
  | nil =>
    intro _ post
    unfold quotaRaises at hbad
    cases ha : analyzeChannel w bad with
    | res r => rw [ha] at hbad; simp at hbad
    | exn m =>
      rw [ha] at hbad
      have hb : isQuotaMsg m = true := hbad
      simp [processBatch, ha, hb, analyzeResultsOf]
  | cons c pre ih =>
    intro h post
    have hrest := ih (fun x hx => h x (List.mem_cons_of_mem c hx)) post
    have hc := h c (List.mem_cons_self c _)
    cases ha : analyzeChannel w c with
    | res r =>
      simp [processBatch, ha, hrest, analyzeResultsOf, List.filterMap_cons]
    | exn m =>
      have hm : isQuotaMsg m = false := by
        unfold quotaRaises at hc
        rw [ha] at hc
        exact hc
      simp [processBatch, ha, hm, hrest, analyzeResultsOf, List.filterMap_cons]

/-- C10: a quota/403 error raised while analyzing one channel of a batch
stops that batch at that channel (channels after it are never attempted),
but the batch's already-analyzed results are still filtered and persisted,
and the following batches are processed normally. -/
theorem quota_mid_batch :
    ∀ (w : World) (m : Nat) (st : Store) (pre : List String) (bad : String)
      (post : List String) (bs : List (List String)),
      (∀ c ∈ pre, quotaRaises w c = false) →
      quotaRaises w bad = true →
      (processBatch w (pre ++ bad :: post)).attempted = pre ++ [bad] ∧
      (processBatch w (pre ++ bad :: post)).results = analyzeResultsOf w pre ∧
      processBatches w m st ((pre ++ bad :: post) :: bs) =
        (let fil := filterBatch m (analyzeResultsOf w pre)
         let st1 := if fil.isEmpty then st else (writeBatchToSheets st fil).1
         let evs := if fil.isEmpty then ([] : List WriteEvent)
           else [(writeBatchToSheets st fil).2]
         let rest := processBatches w m st1 bs
         ⟨rest.store, (pre ++ [bad]) ++ rest.attempted, fil ++ rest.persisted,
           fil.length + rest.totalAdded, evs ++ rest.events⟩) := by
  intro w m st pre bad post bs hpre hbad
  have hb := processBatch_quota_break hbad hpre post
  refine ⟨by rw [hb], by rw [hb], ?_⟩
  simp only [processBatches, hb]
  by_cases hf : (filterBatch m (analyzeResultsOf w pre)).isEmpty
  · rw [if_pos hf, if_pos hf, if_pos hf]
  · rw [if_neg hf, if_neg hf, if_neg hf]

/-- Concrete environment for the C10 witness: `b` raises a quota error,
the other channels are fine. -/
def w10 : World :=
  { searchPages := fun _ _ => PageResult.exn
    channelDetail := fun cid =>
      if cid == "b" then FetchOutcome.raised "quotaExceeded"
      else FetchOutcome.found ⟨"kids", "", "", 0, 0⟩
    now := "d" }

/-- Witness for C10: with batch `["c1", "b", "c3"]` the loop attempts
exactly `["c1", "b"]`. -/
theorem quota_mid_batch_witness :
    (∀ c ∈ ["c1"], quotaRaises w10 c = false) ∧ quotaRaises w10 "b" = true ∧
    (processBatch w10 (["c1"] ++ "b" :: ["c3"])).attempted = ["c1"] ++ ["b"] := by
  have h1 : ∀ c ∈ ["c1"], quotaRaises w10 c = false := by decide
  have h2 : quotaRaises w10 "b" = true := by decide
  exact ⟨h1, h2,
    (quota_mid_batch w10 3 (Store.mk none none) ["c1"] "b" ["c3"] [] h1 h2).1⟩

/-- Environment for the C4 counterexample: the search finds `c1`, which is
already in the store. -/
def w4 : World :=
  { searchPages := fun _ k => if k = 0 then PageResult.ok ["c1"] false else PageResult.exn
    channelDetail := fun _ => FetchOutcome.notFound
    now := "d" }

def st4 : Store :=
  { resultRows := some [resultHeaders,
      ["c1", "t", "u", "0", "0", "5", "kids", "Yes", "d"]]
    summary := none }

/-- Counterexample to C4: when dedup leaves zero candidates, `run_analysis`
returns at line 449-451 before the final `update_summary` call, so no
summary is written. -/
theorem finalize_skipped_counterexample :
    (runAnalysis w4 (ConfigSource.ok ⟨["t"], 5, 3⟩) 3 st4).newChannelIds = [] ∧
    (runAnalysis w4 (ConfigSource.ok ⟨["t"], 5, 3⟩) 3 st4).summaryWritten = false ∧
    (runAnalysis w4 (ConfigSource.ok ⟨["t"], 5, 3⟩) 3 st4).store.summary = none := by
  decide

/-- C4 (amended): the summary is written after batch processing whenever at
least one candidate survives dedup, even when zero channels qualify; but a
run whose dedup (or search) leaves zero candidates returns early without
writing the summary, terminating normally with the store untouched. -/
theorem finalize_summary_amended :
    ∀ (w : World) (cs : ConfigSource) (fuel : Nat) (st : Store),
      ((runAnalysis w cs fuel st).newChannelIds = [] →
        (runAnalysis w cs fuel st).summaryWritten = false ∧
        (runAnalysis w cs fuel st).store = st) ∧
      ((runAnalysis w cs fuel st).newChannelIds ≠ [] →
        (runAnalysis w cs fuel st).summaryWritten = true ∧
        (runAnalysis w cs fuel st).store.summary =
          some ⟨w.now, (runAnalysis w cs fuel st).newChannelIds.length,
            (runAnalysis w cs fuel st).totalAdded,
            String.intercalate ", " (getInputFromSheets cs).searchTerms⟩) := by
  intro w cs fuel st
  simp only [runAnalysis]
  split
  next h1 => simp
  next h1 =>
    split
    next h2 =>
      refine ⟨fun _ => ⟨rfl, rfl⟩, fun hne => absurd (List.isEmpty_iff.mp h2) hne⟩
    next h2 =>
      refine ⟨fun he => absurd (List.isEmpty_iff.mpr he) h2, fun _ => ⟨rfl, ?_⟩⟩
      simp [updateSummary]

/-- Witness for C4's amended claim at a run with one new candidate. -/
theorem finalize_summary_amended_witness :
    (runAnalysis w5 cs5 3 (Store.mk none none)).newChannelIds ≠ [] ∧
    (runAnalysis w5 cs5 3 (Store.mk none none)).summaryWritten = true := by
  have hne : (runAnalysis w5 cs5 3 (Store.mk none none)).newChannelIds ≠ [] := by
    decide
  exact ⟨hne, ((finalize_summary_amended w5 cs5 3 (Store.mk none none)).2 hne).1⟩

/-- A page outcome that is not a successful 200 response. -/
def isErrorPage : PageResult → Bool
  | PageResult.ok _ _ => false
  | PageResult.http _ _ => true
  | PageResult.exn => true

theorem searchLoop_stops_at_error (pages : Nat → PageResult) (maxResults : Nat) :
    ∀ (fuel callIdx : Nat) (ids : List String) (reqs : List Nat) (idx : Nat),
      callIdx ≤ idx → isErrorPage (pages idx) = true →
      (searchLoop pages maxResults fuel callIdx ids reqs).pageSizes.length ≤
        reqs.length + (idx + 1 - callIdx) := by
  intro fuel
  induction fuel with
  | zero =>
    intro callIdx ids reqs idx hle herr
    simp only [searchLoop]
    omega
  | succ fuel ih =>
    intro callIdx ids reqs idx hle herr
    simp only [searchLoop]
    split
    · split
      next items hasNext heq =>
        have hlt : callIdx < idx := by
          rcases Nat.lt_or_ge callIdx idx with h | h
          · exact h
          · have : callIdx = idx := Nat.le_antisymm hle h
            rw [this] at heq
            rw [heq] at herr
            simp [isErrorPage] at herr
        split
        · simp only [List.length_append, List.length_cons, List.length_nil]
          omega
        · have := ih (callIdx + 1)
            (ids ++ List.take (maxResults - ids.length) items)
            (reqs ++ [min (min 50 maxResults) (maxResults - ids.length)]) idx
            hlt herr
          simp only [List.length_append, List.length_cons, List.length_nil] at this ⊢
          omega
      next status quotaPayload heq =>
        split <;>
          · simp only [List.length_append, List.length_cons, List.length_nil]
            omega
      next heq =>
        simp only [List.length_append, List.length_cons, List.length_nil]
        omega
    · exact Nat.le_add_right reqs.length _

theorem searchPhaseGo_all_issued (w : World) (cfg : RunConfig) (fuel : Nat) :
    ∀ (terms acc issued : List String) (count : Nat),
      (∀ t ∈ terms,
        (searchChannels (w.searchPages t) cfg.maxResultsPerTerm fuel).ids ≠ []) →
      (searchPhaseGo w cfg fuel terms acc issued count).issuedTerms =
        issued ++ terms := by
  intro terms
  induction terms with
  | nil => intro acc issued count _; simp [searchPhaseGo]
  | cons t rest ih =>
    intro acc issued count h
    have ht := h t (List.mem_cons_self t rest)
    have hrest := fun x hx => h x (List.mem_cons_of_mem t hx)
    simp only [searchPhaseGo]
    rw [if_neg (by simpa [List.isEmpty_iff] using ht)]
    rw [ih _ _ _ hrest]
    simp

/-- Environment for the C2 counterexample: term `a` immediately reports
quota exhaustion, term `b` returns results. -/
def w2 : World :=
  { searchPages := fun t _ =>
      if t == "a" then PageResult.http 403 true else PageResult.ok ["x"] false
    channelDetail := fun _ => FetchOutcome.notFound
    now := "d" }

/-- Counterexample to C2: the quota signal is detected while searching term
`a` (the 403/quotaExceeded branch runs), yet `run_analysis` still issues a
search for term `b`: `search_channels` only breaks its own pagination loop
and returns a plain list, so the orchestrator cannot see the signal. -/
theorem quota_stop_counterexample :
    (searchChannels (w2.searchPages "a") 5 3).quotaHit = true ∧
    (searchPhase w2 ⟨["a", "b"], 5, 3⟩ 3).issuedTerms = ["a", "b"] := by
  decide

/-- C2 (amended): a detected quota-exhaustion signal (like any error page)
aborts only the current term's pagination — no further page request is made
for that term — while the orchestrator keeps issuing searches for the
remaining terms; the search phase stops early only via the separate
zero-results-after-more-than-20-searches heuristic. -/
theorem quota_stop_amended :
    (∀ (pages : Nat → PageResult) (maxResults fuel idx : Nat),
      isErrorPage (pages idx) = true →
      (searchChannels pages maxResults fuel).pageSizes.length ≤ idx + 1) ∧
    (∀ (w : World) (cfg : RunConfig) (fuel : Nat),
      (∀ t ∈ cfg.searchTerms,
        (searchChannels (w.searchPages t) cfg.maxResultsPerTerm fuel).ids ≠ []) →
      (searchPhase w cfg fuel).issuedTerms = cfg.searchTerms) := by
  constructor
  · intro pages maxResults fuel idx herr
    have := searchLoop_stops_at_error pages maxResults fuel 0 [] [] idx
      (Nat.zero_le idx) herr
    simpa [searchChannels] using this
  · intro w cfg fuel h
    have := searchPhaseGo_all_issued w cfg fuel cfg.searchTerms [] [] 0 h
    simpa [searchPhase] using this

/-- Witness for C2's amended claim: quota on the very first page stops
pagination after one request, and a world whose terms all return results
issues every term. -/
theorem quota_stop_amended_witness :
    isErrorPage ((fun _ => PageResult.http 403 true) 0) = true ∧
    (searchChannels (fun _ => PageResult.http 403 true) 5 3).pageSizes.length ≤ 1 ∧
    (searchPhase w5 ⟨["t1", "t2"], 5, 3⟩ 3).issuedTerms = ["t1", "t2"] := by
  refine ⟨by decide, quota_stop_amended.1 (fun _ => PageResult.http 403 true) 5 3 0 (by decide), ?_⟩
  exact quota_stop_amended.2 w5 ⟨["t1", "t2"], 5, 3⟩ 3 (by decide)

/-- Environment for the C3 counterexample: the search returns a single
empty-string identifier whose metadata matches "kids". -/
def w3 : World :=
  { searchPages := fun _ k => if k = 0 then PageResult.ok [""] false else PageResult.exn
    channelDetail := fun _ => FetchOutcome.found ⟨"kids", "", "", 0, 0⟩
    now := "d" }

def cs3 : ConfigSource := ConfigSource.ok ⟨["t"], 5, 3⟩

/-- Counterexample to C3: running the pipeline twice against the same
store and search results appends a second row on the second run, and the
dedup filter does not remove the candidate: the empty identifier is
persisted by the first run but skipped by the `row[0]` truthiness check of
`get_existing_channels`, so the snapshot misses it. -/
theorem idempotence_counterexample :
    (runAnalysis w3 cs3 3
      ((runAnalysis w3 cs3 3 (Store.mk none none)).store)).persisted ≠ [] ∧
    (runAnalysis w3 cs3 3
      ((runAnalysis w3 cs3 3 (Store.mk none none)).store)).store.resultRows ≠
      (runAnalysis w3 cs3 3 (Store.mk none none)).store.resultRows := by
  decide

theorem toBatchesGo_flatten :
    ∀ (fuel : Nat) (l : List String), l.length ≤ fuel →
      (toBatchesGo fuel l).flatten = l := by
  intro fuel
  induction fuel with
  | zero =>
    intro l h
    have : l = [] := List.length_eq_zero.mp (Nat.le_zero.mp h)
    subst this
    rfl
  | succ fuel ih =>
    intro l h
    cases l with
    | nil => rfl
    | cons x xs =>
      simp only [toBatchesGo, List.flatten_cons]
      rw [ih ((x :: xs).drop batchSize) (by
        simp only [List.length_drop, List.length_cons, batchSize] at *
        omega)]
      exact List.take_append_drop batchSize (x :: xs)

theorem toBatches_flatten (l : List String) : (toBatches l).flatten = l :=
  toBatchesGo_flatten l.length l Nat.le.refl

/-- Whether analyzing `cid` yields a result that passes the batch filter. -/
def channelQualifies (w : World) (m : Nat) (cid : String) : Bool :=
  match analyzeChannel w cid with
  | AnalyzeOutcome.res r => qualifies m r
  | AnalyzeOutcome.exn _ => false

theorem analyzeResultsOf_append (w : World) (l1 l2 : List String) :
    analyzeResultsOf w (l1 ++ l2) =
      analyzeResultsOf w l1 ++ analyzeResultsOf w l2 := by
  simp [analyzeResultsOf]

theorem filterBatch_append (m : Nat) (rs1 rs2 : List AnalyzeResult) :
    filterBatch m (rs1 ++ rs2) = filterBatch m rs1 ++ filterBatch m rs2 := by
  simp [filterBatch]

theorem processBatches_persisted (w : World) (m : Nat) :
    ∀ (bs : List (List String)), (∀ c ∈ bs.flatten, quotaRaises w c = false) →
      ∀ st, (processBatches w m st bs).persisted =
        filterBatch m (analyzeResultsOf w bs.flatten) := by
  intro bs
  induction bs with
  | nil => intro _ st; simp [processBatches, analyzeResultsOf, filterBatch]
  | cons b bs ih =>
    intro h st
    have hb : ∀ c ∈ b, quotaRaises w c = false := fun c hc =>
      h c (by rw [List.flatten_cons]; exact List.mem_append_left _ hc)
    have hbs : ∀ c ∈ bs.flatten, quotaRaises w c = false := fun c hc =>
      h c (by rw [List.flatten_cons]; exact List.mem_append_right _ hc)
    simp only [processBatches, processBatch_no_quota hb]
    rw [List.flatten_cons, analyzeResultsOf_append, filterBatch_append]
    by_cases hf : (filterBatch m (analyzeResultsOf w b)).isEmpty
    · rw [if_pos hf, ih hbs]
    · rw [if_neg hf, ih hbs]

theorem analyzeResultsOf_cons_res {w : World} {c : String} {r : AnalyzeResult}
    (h : analyzeChannel w c = AnalyzeOutcome.res r) (l : List String) :
    analyzeResultsOf w (c :: l) = r :: analyzeResultsOf w l := by
  simp [analyzeResultsOf, List.filterMap_cons, h]

theorem analyzeResultsOf_cons_exn {w : World} {c : String} {msg : String}
    (h : analyzeChannel w c = AnalyzeOutcome.exn msg) (l : List String) :
    analyzeResultsOf w (c :: l) = analyzeResultsOf w l := by
  simp [analyzeResultsOf, List.filterMap_cons, h]

theorem filterBatch_cons_ok {m : Nat} {a : AnalyzedChannel}
    (h : qualifies m (AnalyzeResult.ok a) = true) (rs : List AnalyzeResult) :
    filterBatch m (AnalyzeResult.ok a :: rs) = a :: filterBatch m rs := by
  simp [filterBatch, List.filterMap_cons, h]

theorem filterBatch_cons_skip {m : Nat} {r : AnalyzeResult}
    (h : qualifies m r = false) (rs : List AnalyzeResult) :
    filterBatch m (r :: rs) = filterBatch m rs := by
  simp [filterBatch, List.filterMap_cons, h]

theorem filterBatch_all_unqualified (w : World) (m : Nat) :
    ∀ (l : List String), (∀ c ∈ l, channelQualifies w m c = false) →
      filterBatch m (analyzeResultsOf w l) = [] := by
  intro l
  induction l with
  | nil => intro _; rfl
  | cons c l ih =>
    intro h
    have hc := h c (List.mem_cons_self c l)
    have hl := ih (fun x hx => h x (List.mem_cons_of_mem c hx))
    cases ha : analyzeChannel w c with
    | res r =>
      have hq : qualifies m r = false := by
        unfold channelQualifies at hc
        rw [ha] at hc
        exact hc
      rw [analyzeResultsOf_cons_res ha, filterBatch_cons_skip hq, hl]
    | exn msg =>
      rw [analyzeResultsOf_cons_exn ha, hl]

theorem persisted_ids (w : World) (m : Nat) :
    ∀ (l : List String),
      (filterBatch m (analyzeResultsOf w l)).map (fun a => a.channelId) =
        l.filter (channelQualifies w m) := by
  intro l
  induction l with
  | nil => rfl
  | cons c l ih =>
    cases ha : analyzeChannel w c with
    | res r =>
      have hcq : channelQualifies w m c = qualifies m r := by
        unfold channelQualifies
        rw [ha]
      cases r with
      | err cid =>
        have hq : qualifies m (AnalyzeResult.err cid) = false := by
          simp [qualifies, hasError]
        rw [analyzeResultsOf_cons_res ha, filterBatch_cons_skip hq,
          List.filter_cons, hcq, hq]
        simpa using ih
      | ok a =>
        have hid : a.channelId = c := analyzeChannel_ok_id ha
        by_cases hq : qualifies m (AnalyzeResult.ok a) = true
        · rw [analyzeResultsOf_cons_res ha, filterBatch_cons_ok hq,
            List.filter_cons, hcq, hq, List.map_cons, ih, hid]
          simp
        · have hq2 : qualifies m (AnalyzeResult.ok a) = false :=
            Bool.eq_false_iff.mpr hq
          rw [analyzeResultsOf_cons_res ha, filterBatch_cons_skip hq2,
            List.filter_cons, hcq, hq2, ih]
          simp
    | exn msg =>
      have hcq : channelQualifies w m c = false := by
        unfold channelQualifies
        rw [ha]
      rw [analyzeResultsOf_cons_exn ha, List.filter_cons, hcq, ih]
      simp

theorem processBatches_rows (w : World) (m : Nat) :
    ∀ (bs : List (List String)) (st : Store),
      (∀ rows, st.resultRows = some rows →
        (processBatches w m st bs).store.resultRows =
          some (rows ++ (processBatches w m st bs).persisted.map toRow)) ∧
      (st.resultRows = none →
        (processBatches w m st bs).store.resultRows =
          (if (processBatches w m st bs).persisted.isEmpty then none
           else some (resultHeaders ::
             (processBatches w m st bs).persisted.map toRow))) ∧
      (processBatches w m st bs).store.summary = st.summary := by
  intro bs
  induction bs with
  | nil =>
    intro st
    refine ⟨fun rows h => ?_, fun h => ?_, rfl⟩
    · simpa [processBatches] using h
    · simpa [processBatches] using h
  | cons b bs ih =>
    intro st
    simp only [processBatches]
    by_cases hf : (filterBatch m (processBatch w b).results).isEmpty
    · rw [if_pos hf]
      have hfe : filterBatch m (processBatch w b).results = [] :=
        List.isEmpty_iff.mp hf
      rw [hfe]
      simpa using ih st
    · rw [if_neg hf]
      have hfne : filterBatch m (processBatch w b).results ≠ [] :=
        fun he => hf (List.isEmpty_iff.mpr he)
      obtain ⟨ih1, ih2, ih3⟩ :=
        ih ((writeBatchToSheets st (filterBatch m (processBatch w b).results)).1)
      obtain ⟨hw1, hw2, -, -, -⟩ :=
        writeBatch_spec st (filterBatch m (processBatch w b).results)
      refine ⟨fun rows h => ?_, fun h => ?_, by rw [ih3, hw2]⟩
      · have hsome : (writeBatchToSheets st
            (filterBatch m (processBatch w b).results)).1.resultRows =
            some (rows ++ (filterBatch m (processBatch w b).results).map toRow) := by
          rw [hw1, h]
          rfl
        rw [ih1 _ hsome]
        simp [List.map_append]
      · have hsome : (writeBatchToSheets st
            (filterBatch m (processBatch w b).results)).1.resultRows =
            some ([resultHeaders] ++
              (filterBatch m (processBatch w b).results).map toRow) := by
          rw [hw1, h]
          rfl
        rw [ih1 _ hsome]
        have hne : (filterBatch m (processBatch w b).results ++
            (processBatches w m (writeBatchToSheets st
              (filterBatch m (processBatch w b).results)).1 bs).persisted).isEmpty = false := by
          cases hc : filterBatch m (processBatch w b).results with
          | nil => exact absurd hc hfne
          | cons x xs => rfl
        rw [if_neg (by simp [hne])]
        simp [List.map_append]

theorem pickId_toRow (a : AnalyzedChannel) :
    pickId (toRow a) = if a.channelId ≠ "" then some a.channelId else none := rfl

theorem filterMap_pickId_map_toRow :
    ∀ (P : List AnalyzedChannel), (∀ a ∈ P, a.channelId ≠ "") →
      (P.map toRow).filterMap pickId = P.map (fun a => a.channelId) := by
  intro P
  induction P with
  | nil => intro _; rfl
  | cons a P ih =>
    intro h
    have ha := h a (List.mem_cons_self a P)
    rw [List.map_cons, List.filterMap_cons, pickId_toRow, if_pos ha,
      List.map_cons, ih (fun x hx => h x (List.mem_cons_of_mem a hx))]

theorem getExisting_updateSummary (st : Store) (now : String) (t n : Nat)
    (terms : List String) :
    getExistingChannels (updateSummary st now t n terms) =
      getExistingChannels st := rfl

theorem resultRows_updateSummary (st : Store) (now : String) (t n : Nat)
    (terms : List String) :
    (updateSummary st now t n terms).resultRows = st.resultRows := rfl

/-- The candidate list after the dedup filter. -/
def newIdsOf (w : World) (cs : ConfigSource) (fuel : Nat) (st : Store) :
    List String :=
  (searchPhase w (getInputFromSheets cs) fuel).allChannelIds.filter
    (fun cid => !((getExistingChannels st).contains cid))

theorem runAnalysis_empty {w : World} {cs : ConfigSource} {fuel : Nat}
    (st : Store)
    (h1 : (searchPhase w (getInputFromSheets cs) fuel).allChannelIds.isEmpty = true) :
    runAnalysis w cs fuel st =
      ⟨st, (searchPhase w (getInputFromSheets cs) fuel).issuedTerms,
        (searchPhase w (getInputFromSheets cs) fuel).allChannelIds,
        [], [], [], 0, false, []⟩ := by
  simp only [runAnalysis]
  rw [if_pos h1]

theorem runAnalysis_noNew {w : World} {cs : ConfigSource} {fuel : Nat}
    (st : Store)
    (h1 : ¬(searchPhase w (getInputFromSheets cs) fuel).allChannelIds.isEmpty = true)
    (h2 : (newIdsOf w cs fuel st).isEmpty = true) :
    runAnalysis w cs fuel st =
      ⟨st, (searchPhase w (getInputFromSheets cs) fuel).issuedTerms,
        (searchPhase w (getInputFromSheets cs) fuel).allChannelIds,
        newIdsOf w cs fuel st, [], [], 0, false, []⟩ := by
  simp only [newIdsOf] at h2 ⊢
  simp only [runAnalysis]
  rw [if_neg h1, if_pos h2]

theorem runAnalysis_main {w : World} {cs : ConfigSource} {fuel : Nat}
    (st : Store)
    (h1 : ¬(searchPhase w (getInputFromSheets cs) fuel).allChannelIds.isEmpty = true)
    (h2 : ¬(newIdsOf w cs fuel st).isEmpty = true) :
    runAnalysis w cs fuel st =
      ⟨updateSummary
          (processBatches w (getInputFromSheets cs).minKidsScore st
            (toBatches (newIdsOf w cs fuel st))).store
          w.now (newIdsOf w cs fuel st).length
          (processBatches w (getInputFromSheets cs).minKidsScore st
            (toBatches (newIdsOf w cs fuel st))).totalAdded
          (getInputFromSheets cs).searchTerms,
        (searchPhase w (getInputFromSheets cs) fuel).issuedTerms,
        (searchPhase w (getInputFromSheets cs) fuel).allChannelIds,
        newIdsOf w cs fuel st,
        (processBatches w (getInputFromSheets cs).minKidsScore st
          (toBatches (newIdsOf w cs fuel st))).attempted,
        (processBatches w (getInputFromSheets cs).minKidsScore st
          (toBatches (newIdsOf w cs fuel st))).persisted,
        (processBatches w (getInputFromSheets cs).minKidsScore st
          (toBatches (newIdsOf w cs fuel st))).totalAdded,
        true,
        (processBatches w (getInputFromSheets cs).minKidsScore st
          (toBatches (newIdsOf w cs fuel st))).events⟩ := by
  simp only [newIdsOf] at h2 ⊢
  simp only [runAnalysis]
  rw [if_neg h1, if_neg h2]

theorem getExisting_after_main {w : World} {cs : ConfigSource} {fuel : Nat}
    (st : Store)
    (h1 : ¬(searchPhase w (getInputFromSheets cs) fuel).allChannelIds.isEmpty = true)
    (h2 : ¬(newIdsOf w cs fuel st).isEmpty = true)
    (hst : st.resultRows.getD [resultHeaders] ≠ [])
    (hPne : ∀ a ∈ (processBatches w (getInputFromSheets cs).minKidsScore st
        (toBatches (newIdsOf w cs fuel st))).persisted, a.channelId ≠ "") :
    getExistingChannels (runAnalysis w cs fuel st).store =
      getExistingChannels st ++
        (processBatches w (getInputFromSheets cs).minKidsScore st
          (toBatches (newIdsOf w cs fuel st))).persisted.map
          (fun a => a.channelId) := by
  rw [runAnalysis_main st h1 h2]
  show getExistingChannels (updateSummary _ _ _ _ _) = _
  rw [getExisting_updateSummary]
  obtain ⟨hb1, hb2, -⟩ := processBatches_rows w (getInputFromSheets cs).minKidsScore
    (toBatches (newIdsOf w cs fuel st)) st
  cases hstR : st.resultRows with
  | some rows =>
    have hrowsne : rows ≠ [] := by
      rw [hstR] at hst
      simpa using hst
    have hrows := hb1 rows hstR
    have hex1 : getExistingChannels st = (rows.drop 1).filterMap pickId := by
      simp [getExistingChannels, hstR]
    rw [hex1]
    simp only [getExistingChannels, hrows]
    rw [List.drop_append_of_le_length
      (by cases rows with | nil => exact absurd rfl hrowsne | cons x xs => simp)]
    rw [List.filterMap_append, filterMap_pickId_map_toRow _ hPne]
  | none =>
    have hex1 : getExistingChannels st = [] := by
      simp [getExistingChannels, hstR]
    rw [hex1, List.nil_append]
    have hrows := hb2 hstR
    by_cases hPe : (processBatches w (getInputFromSheets cs).minKidsScore st
        (toBatches (newIdsOf w cs fuel st))).persisted.isEmpty
    · rw [if_pos hPe] at hrows
      have hPnil : (processBatches w (getInputFromSheets cs).minKidsScore st
          (toBatches (newIdsOf w cs fuel st))).persisted = [] :=
        List.isEmpty_iff.mp hPe
      rw [hPnil]
      simp [getExistingChannels, hrows]
    · rw [if_neg hPe] at hrows
      simp only [getExistingChannels, hrows]
      rw [List.drop_one, List.tail_cons, filterMap_pickId_map_toRow _ hPne]

theorem contains_append_eq (l1 l2 : List String) (c : String) :
    (l1 ++ l2).contains c = (l1.contains c || l2.contains c) := by
  induction l1 with
  | nil => simp
  | cons x xs ih => simp [List.contains_cons, ih, Bool.or_assoc]

theorem contains_filter_eq {l : List String} {q : String → Bool} {c : String}
    (hc : c ∈ l) : (l.filter q).contains c = q c := by
  cases hq : q c with
  | true =>
    have hmem : c ∈ l.filter q := List.mem_filter.mpr ⟨hc, hq⟩
    exact List.elem_eq_true_of_mem hmem
  | false =>
    have hmem : c ∉ l.filter q := fun hm => by
      have h2 := (List.mem_filter.mp hm).2
      rw [hq] at h2
      exact Bool.false_ne_true h2
    cases hcon : (l.filter q).contains c with
    | false => rfl
    | true => exact absurd (List.mem_of_elem_eq_true hcon) hmem

/-- The records persisted by one run's batch phase. -/
def persistedOf (w : World) (cs : ConfigSource) (fuel : Nat) (st : Store) :
    List AnalyzedChannel :=
  (processBatches w (getInputFromSheets cs).minKidsScore st
    (toBatches (newIdsOf w cs fuel st))).persisted

theorem persistedOf_eq (w : World) (cs : ConfigSource) (fuel : Nat) (st : Store)
    (hnq : ∀ c ∈ newIdsOf w cs fuel st, quotaRaises w c = false) :
    persistedOf w cs fuel st =
      filterBatch (getInputFromSheets cs).minKidsScore
        (analyzeResultsOf w (newIdsOf w cs fuel st)) := by
  unfold persistedOf
  rw [processBatches_persisted w _ (toBatches (newIdsOf w cs fuel st))
    (by rw [toBatches_flatten]; exact hnq) st, toBatches_flatten]

theorem persistedOf_ids (w : World) (cs : ConfigSource) (fuel : Nat) (st : Store)
    (hnq : ∀ c ∈ newIdsOf w cs fuel st, quotaRaises w c = false) :
    (persistedOf w cs fuel st).map (fun a => a.channelId) =
      (newIdsOf w cs fuel st).filter
        (channelQualifies w (getInputFromSheets cs).minKidsScore) := by
  rw [persistedOf_eq w cs fuel st hnq, persisted_ids]

theorem newIds_second_run (w : World) (cs : ConfigSource) (fuel : Nat) (st : Store)
    (h1 : ¬(searchPhase w (getInputFromSheets cs) fuel).allChannelIds.isEmpty = true)
    (h2 : ¬(newIdsOf w cs fuel st).isEmpty = true)
    (hids : ∀ cid ∈ (searchPhase w (getInputFromSheets cs) fuel).allChannelIds,
      cid ≠ "" ∧ quotaRaises w cid = false)
    (hst : st.resultRows.getD [resultHeaders] ≠ []) :
    newIdsOf w cs fuel (runAnalysis w cs fuel st).store =
      (newIdsOf w cs fuel st).filter
        (fun c => !(channelQualifies w (getInputFromSheets cs).minKidsScore c)) := by
  have hsub1 : ∀ c ∈ newIdsOf w cs fuel st,
      c ∈ (searchPhase w (getInputFromSheets cs) fuel).allChannelIds := by
    intro c hc
    simp only [newIdsOf] at hc
    exact (List.mem_filter.mp hc).1
  have hnq1 : ∀ c ∈ newIdsOf w cs fuel st, quotaRaises w c = false :=
    fun c hc => (hids c (hsub1 c hc)).2
  have hne1 : ∀ c ∈ newIdsOf w cs fuel st, c ≠ "" :=
    fun c hc => (hids c (hsub1 c hc)).1
  have hPne : ∀ a ∈ persistedOf w cs fuel st, a.channelId ≠ "" := by
    intro a ha
    have hmm : a.channelId ∈ (newIdsOf w cs fuel st).filter
        (channelQualifies w (getInputFromSheets cs).minKidsScore) := by
      rw [← persistedOf_ids w cs fuel st hnq1]
      exact List.mem_map_of_mem _ ha
    exact hne1 _ (List.mem_of_mem_filter hmm)
  have hex2 : getExistingChannels (runAnalysis w cs fuel st).store =
      getExistingChannels st ++
        (persistedOf w cs fuel st).map (fun a => a.channelId) :=
    getExisting_after_main st h1 h2 hst hPne
  rw [show newIdsOf w cs fuel (runAnalysis w cs fuel st).store =
      (searchPhase w (getInputFromSheets cs) fuel).allChannelIds.filter
        (fun cid => !((getExistingChannels (runAnalysis w cs fuel st).store).contains cid))
    from rfl]
  rw [hex2, persistedOf_ids w cs fuel st hnq1]
  simp only [newIdsOf, contains_append_eq, Bool.not_or]
  rw [show (fun cid =>
        (!(getExistingChannels st).contains cid &&
         !(((searchPhase w (getInputFromSheets cs) fuel).allChannelIds.filter
              (fun cid => !(getExistingChannels st).contains cid)).filter
            (channelQualifies w (getInputFromSheets cs).minKidsScore)).contains cid)) =
      (fun cid =>
        (!(((searchPhase w (getInputFromSheets cs) fuel).allChannelIds.filter
              (fun cid => !(getExistingChannels st).contains cid)).filter
            (channelQualifies w (getInputFromSheets cs).minKidsScore)).contains cid &&
         !(getExistingChannels st).contains cid))
    from funext (fun c => Bool.and_comm _ _)]
  rw [← List.filter_filter]
  apply List.filter_congr
  intro c hc
  rw [contains_filter_eq hc]

/-- C3 (amended): when every discovered identifier is a nonempty string, no
candidate's detail fetch raises a quota error, and the prior store's table
is not a headerless empty table, a second run over the same store and
search results appends zero rows: every identifier persisted by the first
run is in the second run's snapshot (so dedup removes it), and the
remaining candidates — fetch errors and low scorers — pass dedup but are
filtered out again by the score filter. -/
theorem run_twice_appends_nothing :
    ∀ (w : World) (cs : ConfigSource) (fuel : Nat) (st : Store),
      (∀ cid ∈ (searchPhase w (getInputFromSheets cs) fuel).allChannelIds,
        cid ≠ "" ∧ quotaRaises w cid = false) →
      st.resultRows.getD [resultHeaders] ≠ [] →
      (runAnalysis w cs fuel (runAnalysis w cs fuel st).store).store.resultRows =
        (runAnalysis w cs fuel st).store.resultRows ∧
      (runAnalysis w cs fuel (runAnalysis w cs fuel st).store).persisted = [] ∧
      ∀ a ∈ (runAnalysis w cs fuel st).persisted,
        a.channelId ∈ getExistingChannels (runAnalysis w cs fuel st).store := by
  intro w cs fuel st hids hst
  by_cases h1 : (searchPhase w (getInputFromSheets cs) fuel).allChannelIds.isEmpty = true
  · have hr1 := runAnalysis_empty st h1
    exact ⟨by simp only [hr1], by simp only [hr1], by simp only [hr1]; simp⟩
  · by_cases h2 : (newIdsOf w cs fuel st).isEmpty = true
    · have hr1 := runAnalysis_noNew st h1 h2
      exact ⟨by simp only [hr1], by simp only [hr1], by simp only [hr1]; simp⟩
    · have hr1 := runAnalysis_main st h1 h2
      have hsub1 : ∀ c ∈ newIdsOf w cs fuel st,
          c ∈ (searchPhase w (getInputFromSheets cs) fuel).allChannelIds := by
        intro c hc
        simp only [newIdsOf] at hc
        exact (List.mem_filter.mp hc).1
      have hnq1 : ∀ c ∈ newIdsOf w cs fuel st, quotaRaises w c = false :=
        fun c hc => (hids c (hsub1 c hc)).2
      have hne1 : ∀ c ∈ newIdsOf w cs fuel st, c ≠ "" :=
        fun c hc => (hids c (hsub1 c hc)).1
      have hPne : ∀ a ∈ persistedOf w cs fuel st, a.channelId ≠ "" := by
        intro a ha
        have hmm : a.channelId ∈ (newIdsOf w cs fuel st).filter
            (channelQualifies w (getInputFromSheets cs).minKidsScore) := by
          rw [← persistedOf_ids w cs fuel st hnq1]
          exact List.mem_map_of_mem _ ha
        exact hne1 _ (List.mem_of_mem_filter hmm)
      have hex2 : getExistingChannels (runAnalysis w cs fuel st).store =
          getExistingChannels st ++
            (persistedOf w cs fuel st).map (fun a => a.channelId) :=
        getExisting_after_main st h1 h2 hst hPne
      have c3 : ∀ a ∈ (runAnalysis w cs fuel st).persisted,
          a.channelId ∈ getExistingChannels (runAnalysis w cs fuel st).store := by
        intro a ha
        rw [hex2]
        apply List.mem_append_right
        apply List.mem_map_of_mem
        rw [hr1] at ha
        exact ha
      have hNew2 := newIds_second_run w cs fuel st h1 h2 hids hst
      have hq2 : ∀ c ∈ newIdsOf w cs fuel (runAnalysis w cs fuel st).store,
          channelQualifies w (getInputFromSheets cs).minKidsScore c = false := by
        intro c hc
        rw [hNew2] at hc
        have hcq := (List.mem_filter.mp hc).2
        simpa using hcq
      have hsub2 : ∀ c ∈ newIdsOf w cs fuel (runAnalysis w cs fuel st).store,
          c ∈ newIdsOf w cs fuel st := by
        intro c hc
        rw [hNew2] at hc
        exact List.mem_of_mem_filter hc
      have hnq2 : ∀ c ∈ newIdsOf w cs fuel (runAnalysis w cs fuel st).store,
          quotaRaises w c = false :=
        fun c hc => hnq1 c (hsub2 c hc)
      have hP2 : persistedOf w cs fuel (runAnalysis w cs fuel st).store = [] := by
        rw [persistedOf_eq w cs fuel _ hnq2]
        exact filterBatch_all_unqualified w _ _ hq2
      by_cases h3 : (newIdsOf w cs fuel (runAnalysis w cs fuel st).store).isEmpty = true
      · have hr2 := runAnalysis_noNew (runAnalysis w cs fuel st).store h1 h3
        exact ⟨by rw [hr2], by rw [hr2], c3⟩
      · have hr2 := runAnalysis_main (runAnalysis w cs fuel st).store h1 h3
        refine ⟨?_, ?_, c3⟩
        · rw [hr2]
          show (updateSummary _ _ _ _ _).resultRows = _
          rw [resultRows_updateSummary]
          obtain ⟨hb1, hb2, -⟩ := processBatches_rows w
            (getInputFromSheets cs).minKidsScore
            (toBatches (newIdsOf w cs fuel (runAnalysis w cs fuel st).store))
            (runAnalysis w cs fuel st).store
          have hPz : (processBatches w (getInputFromSheets cs).minKidsScore
              (runAnalysis w cs fuel st).store
              (toBatches (newIdsOf w cs fuel
                (runAnalysis w cs fuel st).store))).persisted = [] := hP2
          cases hrr : (runAnalysis w cs fuel st).store.resultRows with
          | some rows =>
            rw [hb1 rows hrr, hPz]
            simp
          | none =>
            rw [hb2 hrr, hPz]
            simp
        · rw [hr2]
          exact hP2

/-- Witness for C3's amended claim: a run persisting one nonempty
identifier, whose second run persists nothing. -/
theorem run_twice_appends_nothing_witness :
    (∀ cid ∈ (searchPhase w5 (getInputFromSheets cs5) 3).allChannelIds,
      cid ≠ "" ∧ quotaRaises w5 cid = false) ∧
    (Store.mk none none).resultRows.getD [resultHeaders] ≠ [] ∧
    (runAnalysis w5 cs5 3
      ((runAnalysis w5 cs5 3 (Store.mk none none)).store)).persisted = [] := by
  have h : ∀ cid ∈ (searchPhase w5 (getInputFromSheets cs5) 3).allChannelIds,
      cid ≠ "" ∧ quotaRaises w5 cid = false := by decide
  have hst : (Store.mk none none).resultRows.getD [resultHeaders] ≠ [] := by decide
  exact ⟨h, hst,
    (run_twice_appends_nothing w5 cs5 3 (Store.mk none none) h hst).2.1⟩
